import Mathlib

/-!
Verification of the collab-sphere signaling/session core against its
natural-language specification.

The definitions below are a shallow embedding of the TypeScript sources:

* `src/signaling-server-deno.ts` — the room-scoped relay (`broadcast`,
  `handleMessage`, the socket-close handler);
* `src/webrtcService-backup.ts` — the relay-connected client service
  (reconnection backoff in `connect`, `handleDataChannelMessage`,
  `handleIceCandidate`, `handleUserDisconnected`, `sendMessage`);
* `src/unnamed/part_003` (the "Simplified WebRTC Service for Netlify")
  — the broadcast-channel variant (`handlePeerJoin` with the id
  tie-break);
* `src/webrtcService.ts` — the PeerJS variant (`announcePresence`,
  `handlePeerDisconnect`).

JavaScript `Map`s are embedded as insertion-ordered association lists,
`Set`s as duplicate-free insertion-ordered lists, JS objects used as maps
as association lists as well.  Machine integers do not overflow in any of
the embedded code paths (delays and timestamps stay far below 2^53), so
they are modelled as `Nat`.
-/

namespace CollabSphere

/-! ### Association-list helpers (JS `Map` / plain-object semantics) -/

/-- First-match lookup, like `Map.get` / property access. -/
def lookup {β : Type} : List (String × β) → String → Option β
  | [], _ => none
  | p :: ps, k => if p.1 = k then some p.2 else lookup ps k

/-- `Map.set` / property assignment: replace in place if the key exists,
append otherwise (JS insertion order). -/
def insertKV {β : Type} : List (String × β) → String → β → List (String × β)
  | [], k, v => [(k, v)]
  | p :: ps, k, v => if p.1 = k then (k, v) :: ps else p :: insertKV ps k v

/-- `Map.delete` / `delete obj[k]`. -/
def eraseKV {β : Type} (l : List (String × β)) (k : String) : List (String × β) :=
  l.filter (fun p => p.1 ≠ k)

/-- `Set.add`: append unless already present. -/
def setAdd (l : List String) (x : String) : List String :=
  if x ∈ l then l else l ++ [x]

theorem lookup_insertKV_self {β : Type} (l : List (String × β)) (k : String) (v : β) :
    lookup (insertKV l k v) k = some v := by
  induction l with
  | nil => simp [insertKV, lookup]
  | cons p ps ih =>
    by_cases h : p.1 = k
    · simp [insertKV, lookup, h]
    · simp [insertKV, lookup, h, ih]

theorem lookup_insertKV_ne {β : Type} (l : List (String × β)) (k k' : String) (v : β)
    (h : k' ≠ k) : lookup (insertKV l k v) k' = lookup l k' := by
  have hk : ¬ k = k' := fun hk => h hk.symm
  induction l with
  | nil => simp [insertKV, lookup, hk]
  | cons p ps ih =>
    simp only [insertKV]
    by_cases hp : p.1 = k
    · subst hp
      simp [lookup, hk]
    · simp [lookup, hp, ih]

theorem lookup_eraseKV_self {β : Type} (l : List (String × β)) (k : String) :
    lookup (eraseKV l k) k = none := by
  induction l with
  | nil => simp [eraseKV, lookup]
  | cons p ps ih =>
    by_cases h : p.1 = k
    · simp only [eraseKV, List.filter_cons] at ih ⊢
      rw [if_neg (by simp [h])]
      exact ih
    · simp only [eraseKV, List.filter_cons] at ih ⊢
      rw [if_pos (by simp [h])]
      simp only [lookup]
      rw [if_neg h]
      exact ih

theorem lookup_eraseKV_ne {β : Type} (l : List (String × β)) (k k' : String)
    (h : k' ≠ k) : lookup (eraseKV l k) k' = lookup l k' := by
  induction l with
  | nil => simp [eraseKV, lookup]
  | cons p ps ih =>
    by_cases hp : p.1 = k
    · have hp' : ¬ p.1 = k' := by
        rw [hp]; exact fun hk => h hk.symm
      simp only [eraseKV, List.filter_cons] at ih ⊢
      rw [if_neg (by simp [hp])]
      rw [ih]
      simp only [lookup]
      rw [if_neg hp']
    · simp only [eraseKV, List.filter_cons] at ih ⊢
      rw [if_pos (by simp [hp])]
      simp only [lookup]
      by_cases hp' : p.1 = k'
      · rw [if_pos hp', if_pos hp']
      · rw [if_neg hp', if_neg hp']
        exact ih

theorem lookup_append_of_isSome {β : Type} (l l' : List (String × β)) (k : String)
    (v : β) (h : lookup l k = some v) : lookup (l ++ l') k = some v := by
  induction l with
  | nil => simp [lookup] at h
  | cons p ps ih =>
    by_cases hp : p.1 = k
    · simp [lookup, hp] at h ⊢
      exact h
    · simp [lookup, hp] at h ⊢
      exact ih h

theorem lookup_eq_none_iff {β : Type} (l : List (String × β)) (k : String) :
    lookup l k = none ↔ k ∉ l.map Prod.fst := by
  induction l with
  | nil => simp [lookup]
  | cons p ps ih =>
    by_cases hp : p.1 = k
    · simp [lookup, hp]
    · simp only [lookup, if_neg hp, List.map_cons, List.mem_cons, ih]
      constructor
      · intro h hk
        rcases hk with hk | hk
        · exact hp hk.symm
        · exact h hk
      · intro h hk
        exact h (Or.inr hk)

/-! ### Relay (`src/signaling-server-deno.ts`)

`clients : Map<string, Client>` and `rooms : Map<string, Set<string>>`.
A `Client`'s `ws` handle is abstracted to the one observable the server
reads from it, `ws.readyState === WebSocket.OPEN`, embedded as `wsOpen`. -/

structure Client where
  roomId : String
  name : String
  wsOpen : Bool
deriving Repr, DecidableEq

structure ServerState where
  clients : List (String × Client)
  rooms : List (String × List String)
deriving Repr, DecidableEq

def initialServer : ServerState := { clients := [], rooms := [] }

/-- Whether `clients.get(cid)` exists with `ws.readyState === WebSocket.OPEN`. -/
def clientOpen (st : ServerState) (cid : String) : Bool :=
  match lookup st.clients cid with
  | some c => c.wsOpen
  | none => false

/-- Recipients of `broadcast(roomId, message, excludeId)`, in room-set order:
skips `excludeId` and every member without a currently open socket. -/
def broadcastRecipients (st : ServerState) (roomId : String)
    (excludeId : Option String) : List String :=
  match lookup st.rooms roomId with
  | none => []
  | some members =>
    members.filter (fun cid => !(excludeId == some cid) && clientOpen st cid)

/-- Recipients of the forwarding branch of `handleMessage` (a non-join,
non-leave envelope from `senderId` with optional `targetId`). -/
def forwardRecipients (st : ServerState) (senderId : String)
    (targetId : Option String) : List String :=
  match lookup st.clients senderId with
  | none => []
  | some sender =>
    if sender.roomId = "" then []
    else
      match targetId with
      | some t =>
        match lookup st.clients t with
        | some tc => if tc.wsOpen then [t] else []
        | none => []
      | none => broadcastRecipients st sender.roomId (some senderId)

/-- Relay events: a WebSocket upgrade (`handleConnection`), the three
`handleMessage` branches, and the socket `onclose` handler. -/
inductive REvent where
  | connect (cid : String) (urlRoom : String)
  | msgJoin (cid : String) (roomId : String) (name : String)
  | msgLeave (cid : String)
  | msgForward (cid : String) (targetId : Option String)
  | socketClose (cid : String)
deriving Repr, DecidableEq

/-- Shared `__leave` / `onclose` logic: remove the client from the room its
`roomId` names (when that is truthy and the room exists) and delete the room
if it became empty. -/
def removeFromRoom (st : ServerState) (cid : String) : ServerState :=
  match lookup st.clients cid with
  | none => st
  | some c =>
    if c.roomId = "" then st
    else
      match lookup st.rooms c.roomId with
      | none => st
      | some members =>
        let members' := members.filter (fun m => m ≠ cid)
        if members'.isEmpty then { st with rooms := eraseKV st.rooms c.roomId }
        else { st with rooms := insertKV st.rooms c.roomId members' }

/-- One relay transition.  `connect` is a no-op on an id collision: the
server draws fresh random client ids, so a connect can never reuse a live
id. -/
def stepRelay (st : ServerState) (e : REvent) : ServerState :=
  match e with
  | .connect cid urlRoom =>
    if (lookup st.clients cid).isSome then st
    else { st with
           clients := st.clients ++
             [(cid, { roomId := urlRoom, name := "Anonymous", wsOpen := true })] }
  | .msgJoin cid roomId name =>
    match lookup st.clients cid with
    | none => st
    | some c =>
      let members := (lookup st.rooms roomId).getD []
      { clients := insertKV st.clients cid { c with roomId := roomId, name := name },
        rooms := insertKV st.rooms roomId (setAdd members cid) }
  | .msgLeave cid =>
    match lookup st.clients cid with
    | none => st
    | some _ =>
      let st' := removeFromRoom st cid
      { st' with clients := eraseKV st'.clients cid }
  | .msgForward _ _ => st
  | .socketClose cid =>
    match lookup st.clients cid with
    | none => st
    | some _ =>
      let st' := removeFromRoom st cid
      { st' with clients := eraseKV st'.clients cid }

def runRelay (st : ServerState) (es : List REvent) : ServerState :=
  es.foldl stepRelay st

/-- Membership symmetry: every member id of every room belongs to a live
client registered in that same room. -/
def SymOk (st : ServerState) : Prop :=
  ∀ rid ms, lookup st.rooms rid = some ms →
    ∀ cid ∈ ms, ∃ c, lookup st.clients cid = some c ∧ c.roomId = rid

/-- No room in the registry is empty (an emptied room is destroyed). -/
def RoomsNonempty (st : ServerState) : Prop :=
  ∀ rid ms, lookup st.rooms rid = some ms → ms ≠ []

/-- The room registry never holds the falsy room id `""` (the upgrade
handler rejects an empty path, and well-formed joins name a real room). -/
def NoEmptyRoomId (st : ServerState) : Prop :=
  lookup st.rooms "" = none

def RelayInv (st : ServerState) : Prop :=
  SymOk st ∧ RoomsNonempty st ∧ NoEmptyRoomId st

/-- The hypothesis under which membership symmetry actually holds: a
`__join` names a nonempty room, and a client never joins while it is still
a member of a different room. -/
def relayGuard (st : ServerState) : REvent → Prop
  | .msgJoin cid roomId _ =>
    roomId ≠ "" ∧
      ∀ rid ms, lookup st.rooms rid = some ms → cid ∈ ms → rid = roomId
  | _ => True

def GuardedRun : ServerState → List REvent → Prop
  | _, [] => True
  | st, e :: es => relayGuard st e ∧ GuardedRun (stepRelay st e) es

theorem mem_setAdd {l : List String} {x y : String} :
    y ∈ setAdd l x ↔ y ∈ l ∨ y = x := by
  unfold setAdd
  by_cases h : x ∈ l
  · simp only [if_pos h]
    constructor
    · exact Or.inl
    · rintro (hy | rfl)
      · exact hy
      · exact h
  · simp [if_neg h]

theorem setAdd_ne_nil (l : List String) (x : String) : setAdd l x ≠ [] := by
  unfold setAdd
  by_cases h : x ∈ l
  · simp only [if_pos h]
    intro hnil
    rw [hnil] at h
    exact absurd h (List.not_mem_nil x)
  · simp [if_neg h]

theorem relayInvDisconnectAux (st : ServerState) (cid : String) (c : Client)
    (hc : lookup st.clients cid = some c) (hInv : RelayInv st) :
    RelayInv { clients := eraseKV (removeFromRoom st cid).clients cid,
               rooms := (removeFromRoom st cid).rooms } := by
  obtain ⟨hSym, hNe, hEmp⟩ := hInv
  have hEmp' : lookup st.rooms "" = none := hEmp
  simp only [removeFromRoom, hc]
  by_cases hrid : c.roomId = ""
  · simp only [if_pos hrid]
    refine ⟨?_, hNe, hEmp⟩
    intro rid ms hms cid' hmem
    obtain ⟨c'', hc'', hr''⟩ := hSym rid ms hms cid' hmem
    have hcc : cid' ≠ cid := by
      intro h
      subst h
      rw [hc] at hc''
      injection hc'' with hce
      subst hce
      rw [hrid] at hr''
      rw [← hr''] at hms
      rw [hEmp'] at hms
      cases hms
    exact ⟨c'', by rw [lookup_eraseKV_ne _ _ _ hcc]; exact hc'', hr''⟩
  · simp only [if_neg hrid]
    cases hmo : lookup st.rooms c.roomId with
    | none =>
      refine ⟨?_, hNe, hEmp⟩
      intro rid ms hms cid' hmem
      obtain ⟨c'', hc'', hr''⟩ := hSym rid ms hms cid' hmem
      have hcc : cid' ≠ cid := by
        intro h
        subst h
        rw [hc] at hc''
        injection hc'' with hce
        subst hce
        rw [← hr''] at hms
        rw [hmo] at hms
        cases hms
      exact ⟨c'', by rw [lookup_eraseKV_ne _ _ _ hcc]; exact hc'', hr''⟩
    | some members =>
      by_cases hne : (members.filter (fun m => m ≠ cid)).isEmpty
      · simp only [if_pos hne]
        have hrrAll : ∀ rid ms, lookup (eraseKV st.rooms c.roomId) rid = some ms →
            rid ≠ c.roomId ∧ lookup st.rooms rid = some ms := by
          intro rid ms hms
          have hrr : rid ≠ c.roomId := by
            intro h
            rw [h, lookup_eraseKV_self] at hms
            cases hms
          rw [lookup_eraseKV_ne _ _ _ hrr] at hms
          exact ⟨hrr, hms⟩
        refine ⟨?_, ?_, ?_⟩
        · intro rid ms hms cid' hmem
          obtain ⟨hrr, hms'⟩ := hrrAll rid ms hms
          obtain ⟨c'', hc'', hr''⟩ := hSym rid ms hms' cid' hmem
          have hcc : cid' ≠ cid := by
            intro h
            subst h
            rw [hc] at hc''
            injection hc'' with hce
            subst hce
            exact hrr hr''.symm
          exact ⟨c'', by rw [lookup_eraseKV_ne _ _ _ hcc]; exact hc'', hr''⟩
        · intro rid ms hms
          exact hNe rid ms (hrrAll rid ms hms).2
        · have h0 : ("" : String) ≠ c.roomId := fun h => hrid h.symm
          show lookup (eraseKV st.rooms c.roomId) "" = none
          rw [lookup_eraseKV_ne _ _ _ h0]
          exact hEmp'
      · simp only [if_neg hne]
        refine ⟨?_, ?_, ?_⟩
        · intro rid ms hms cid' hmem
          by_cases hrr : rid = c.roomId
          · subst hrr
            rw [lookup_insertKV_self] at hms
            cases hms
            obtain ⟨hm1, hm2⟩ := List.mem_filter.mp hmem
            have hcc : cid' ≠ cid := by simpa using hm2
            obtain ⟨c'', hc'', hr''⟩ := hSym _ members hmo cid' hm1
            exact ⟨c'', by rw [lookup_eraseKV_ne _ _ _ hcc]; exact hc'', hr''⟩
          · rw [lookup_insertKV_ne _ _ _ _ hrr] at hms
            obtain ⟨c'', hc'', hr''⟩ := hSym rid ms hms cid' hmem
            have hcc : cid' ≠ cid := by
              intro h
              subst h
              rw [hc] at hc''
              injection hc'' with hce
              subst hce
              exact hrr hr''.symm
            exact ⟨c'', by rw [lookup_eraseKV_ne _ _ _ hcc]; exact hc'', hr''⟩
        · intro rid ms hms
          by_cases hrr : rid = c.roomId
          · subst hrr
            rw [lookup_insertKV_self] at hms
            cases hms
            intro hnil
            rw [hnil] at hne
            exact hne rfl
          · rw [lookup_insertKV_ne _ _ _ _ hrr] at hms
            exact hNe rid ms hms
        · have h0 : ("" : String) ≠ c.roomId := fun h => hrid h.symm
          show lookup (insertKV st.rooms c.roomId (members.filter (fun m => m ≠ cid))) "" = none
          rw [lookup_insertKV_ne _ _ _ _ h0]
          exact hEmp'

theorem relayInv_step (st : ServerState) (e : REvent)
    (hInv : RelayInv st) (hg : relayGuard st e) : RelayInv (stepRelay st e) := by
  obtain ⟨hSym, hNe, hEmp⟩ := hInv
  cases e with
  | connect cid urlRoom =>
    simp only [stepRelay]
    by_cases hc : (lookup st.clients cid).isSome
    · rw [if_pos hc]; exact ⟨hSym, hNe, hEmp⟩
    · rw [if_neg hc]
      refine ⟨?_, hNe, hEmp⟩
      intro rid ms hms cid' hmem
      obtain ⟨c, hc', hr⟩ := hSym rid ms hms cid' hmem
      exact ⟨c, lookup_append_of_isSome _ _ _ _ hc', hr⟩
  | msgJoin cid roomId name =>
    obtain ⟨hrid, hguard⟩ := hg
    simp only [stepRelay]
    cases hc : lookup st.clients cid with
    | none => exact ⟨hSym, hNe, hEmp⟩
    | some c =>
      refine ⟨?_, ?_, ?_⟩
      · intro rid ms hms cid' hmem
        by_cases hr : rid = roomId
        · subst hr
          rw [lookup_insertKV_self] at hms
          cases hms
          by_cases hcc : cid' = cid
          · subst hcc
            exact ⟨_, lookup_insertKV_self _ _ _, rfl⟩
          · rw [mem_setAdd] at hmem
            rcases hmem with hmem | hmem
            · cases hmo : lookup st.rooms rid with
              | none => rw [hmo] at hmem; simp at hmem
              | some members0 =>
                rw [hmo] at hmem
                obtain ⟨c'', hc'', hr''⟩ := hSym rid members0 hmo cid' hmem
                exact ⟨c'', by rw [lookup_insertKV_ne _ _ _ _ hcc]; exact hc'', hr''⟩
            · exact absurd hmem hcc
        · rw [lookup_insertKV_ne _ _ _ _ hr] at hms
          have hcc : cid' ≠ cid := by
            intro hcc
            subst hcc
            exact hr (hguard rid ms hms hmem)
          obtain ⟨c'', hc'', hr''⟩ := hSym rid ms hms cid' hmem
          exact ⟨c'', by rw [lookup_insertKV_ne _ _ _ _ hcc]; exact hc'', hr''⟩
      · intro rid ms hms
        by_cases hr : rid = roomId
        · subst hr
          rw [lookup_insertKV_self] at hms
          cases hms
          exact setAdd_ne_nil _ _
        · rw [lookup_insertKV_ne _ _ _ _ hr] at hms
          exact hNe rid ms hms
      · have : ("" : String) ≠ roomId := fun h => hrid h.symm
        unfold NoEmptyRoomId
        rw [lookup_insertKV_ne _ _ _ _ this]
        exact hEmp
  | msgForward cid targetId => exact ⟨hSym, hNe, hEmp⟩
  | msgLeave cid =>
    simp only [stepRelay]
    cases hc : lookup st.clients cid with
    | none => exact ⟨hSym, hNe, hEmp⟩
    | some c => exact relayInvDisconnectAux st cid c hc ⟨hSym, hNe, hEmp⟩
  | socketClose cid =>
    simp only [stepRelay]
    cases hc : lookup st.clients cid with
    | none => exact ⟨hSym, hNe, hEmp⟩
    | some c => exact relayInvDisconnectAux st cid c hc ⟨hSym, hNe, hEmp⟩

theorem relayInv_run (es : List REvent) : ∀ st : ServerState,
    RelayInv st → GuardedRun st es → RelayInv (runRelay st es) := by
  induction es with
  | nil => intro st hInv _; exact hInv
  | cons e es ih =>
    intro st hInv hg
    obtain ⟨hg1, hg2⟩ := hg
    exact ih (stepRelay st e) (relayInv_step st e hInv hg1) hg2

theorem relayInv_initial : RelayInv initialServer := by
  refine ⟨?_, ?_, ?_⟩
  · intro rid ms hms
    simp [initialServer, lookup] at hms
  · intro rid ms hms
    simp [initialServer, lookup] at hms
  · show lookup initialServer.rooms "" = none
    rfl

/-- C6.  The claim as stated is false: `__join` adds the client to the new
room without removing it from its previous room, so after `connect c r1;
join c r1; join c r2` room `r1` still lists `c` while `c` is registered in
`r2` — membership symmetry is violated. -/
theorem relay_symmetry_counterexample :
    ¬ SymOk (runRelay initialServer
      [.connect "c" "r1", .msgJoin "c" "r1" "n", .msgJoin "c" "r2" "n"]) := by
  intro h
  have hms : lookup (runRelay initialServer
      [.connect "c" "r1", .msgJoin "c" "r1" "n", .msgJoin "c" "r2" "n"]).rooms "r1"
      = some ["c"] := by decide
  obtain ⟨c, hcl, hr⟩ := h "r1" ["c"] hms "c" (by simp)
  have hcv : lookup (runRelay initialServer
      [.connect "c" "r1", .msgJoin "c" "r1" "n", .msgJoin "c" "r2" "n"]).clients "c"
      = some { roomId := "r2", name := "n", wsOpen := true } := by decide
  rw [hcv] at hcl
  injection hcl with hce
  subst hce
  exact absurd hr (by decide)

/-- C6 (amended).  For every run of connect, join, leave, forward and
socket-close events in which each `__join` names a nonempty room and no
client joins while still a member of a different room, every reachable
relay state satisfies membership symmetry, and no room is ever empty (a
room emptied by a leave or socket close is destroyed at once). -/
theorem relay_symmetry_invariant (es : List REvent)
    (hg : GuardedRun initialServer es) :
    SymOk (runRelay initialServer es) ∧ RoomsNonempty (runRelay initialServer es) := by
  obtain ⟨h1, h2, _⟩ := relayInv_run es initialServer relayInv_initial hg
  exact ⟨h1, h2⟩

/-- Witness for `relay_symmetry_invariant` at a concrete guarded run. -/
theorem relay_symmetry_invariant_witness :
    SymOk (runRelay initialServer
      [.connect "a" "r1", .msgJoin "a" "r1" "Alice",
       .connect "b" "r1", .msgJoin "b" "r1" "Bob", .msgLeave "a"]) ∧
    RoomsNonempty (runRelay initialServer
      [.connect "a" "r1", .msgJoin "a" "r1" "Alice",
       .connect "b" "r1", .msgJoin "b" "r1" "Bob", .msgLeave "a"]) := by
  apply relay_symmetry_invariant
  refine ⟨trivial, ⟨by decide, ?_⟩, trivial, ⟨by decide, ?_⟩, trivial, trivial⟩
  · intro rid ms hms
    rw [show (stepRelay initialServer (REvent.connect "a" "r1")).rooms = []
      from by decide] at hms
    simp [lookup] at hms
  · intro rid ms hms hmem
    rw [show (stepRelay (stepRelay (stepRelay initialServer
        (REvent.connect "a" "r1")) (REvent.msgJoin "a" "r1" "Alice"))
        (REvent.connect "b" "r1")).rooms = [("r1", ["a"])]
      from by decide] at hms
    by_cases h : ("r1" : String) = rid
    · exact h.symm
    · simp [lookup, h] at hms

/-- C5.  Forwarding rules of the relay, for a sender that is registered
with a (truthy) room: a targeted envelope goes exactly to the named client
when its socket is open and to nobody otherwise, with no error and no
queuing; a broadcast envelope reaches every other open room member exactly
once and never the sender. -/
theorem relay_forward_delivery (st : ServerState) (senderId : String) (sc : Client)
    (hs : lookup st.clients senderId = some sc) (hr : sc.roomId ≠ "")
    (members : List String) (hm : lookup st.rooms sc.roomId = some members)
    (hnd : members.Nodup) :
    (∀ t : String,
      forwardRecipients st senderId (some t) =
        if clientOpen st t then [t] else []) ∧
    senderId ∉ forwardRecipients st senderId none ∧
    (∀ m ∈ members, m ≠ senderId → clientOpen st m = true →
      (forwardRecipients st senderId none).count m = 1) ∧
    (∀ cid, cid ∈ forwardRecipients st senderId none →
      cid ∈ members ∧ cid ≠ senderId ∧ clientOpen st cid = true) := by
  have hfwd : ∀ tid, forwardRecipients st senderId tid =
      match tid with
      | some t =>
        match lookup st.clients t with
        | some tc => if tc.wsOpen then [t] else []
        | none => []
      | none => broadcastRecipients st sc.roomId (some senderId) := by
    intro tid
    simp only [forwardRecipients, hs, if_neg hr]
  have hbc : broadcastRecipients st sc.roomId (some senderId) =
      members.filter (fun cid => !(some senderId == some cid) && clientOpen st cid) := by
    simp only [broadcastRecipients, hm]
  refine ⟨?_, ?_, ?_, ?_⟩
  · intro t
    rw [hfwd (some t)]
    cases hl : lookup st.clients t with
    | none => simp [clientOpen, hl]
    | some tc => cases htc : tc.wsOpen <;> simp [clientOpen, hl, htc]
  · rw [hfwd none, hbc]
    intro hmem
    have := (List.mem_filter.mp hmem).2
    simp at this
  · intro m hmm hms hopen
    rw [hfwd none, hbc]
    have hmemf : m ∈ members.filter
        (fun cid => !(some senderId == some cid) && clientOpen st cid) := by
      refine List.mem_filter.mpr ⟨hmm, ?_⟩
      have hne : ¬ senderId = m := fun h => hms h.symm
      simp [hopen, hne]
    exact List.count_eq_one_of_mem (hnd.filter _) hmemf
  · intro cid hmem
    rw [hfwd none, hbc] at hmem
    obtain ⟨h1, h2⟩ := List.mem_filter.mp hmem
    simp only [Bool.and_eq_true, Bool.not_eq_true'] at h2
    refine ⟨h1, ?_, h2.2⟩
    intro h
    subst h
    simp at h2

/-- Concrete relay state used as witness input: one room with three open
clients. -/
def relayW : ServerState :=
  { clients := [("s", { roomId := "r", name := "Sender", wsOpen := true }),
                ("a", { roomId := "r", name := "A", wsOpen := true }),
                ("b", { roomId := "r", name := "B", wsOpen := true })],
    rooms := [("r", ["s", "a", "b"])] }

/-- Witness for `relay_forward_delivery` on a three-member room. -/
theorem relay_forward_delivery_witness :
    (∀ t : String,
      forwardRecipients relayW "s" (some t) =
        if clientOpen relayW t then [t] else []) ∧
    "s" ∉ forwardRecipients relayW "s" none ∧
    (∀ m ∈ ["s", "a", "b"], m ≠ "s" → clientOpen relayW m = true →
      (forwardRecipients relayW "s" none).count m = 1) ∧
    (∀ cid, cid ∈ forwardRecipients relayW "s" none →
      cid ∈ ["s", "a", "b"] ∧ cid ≠ "s" ∧ clientOpen relayW cid = true) :=
  relay_forward_delivery relayW "s"
    { roomId := "r", name := "Sender", wsOpen := true }
    (by decide) (by decide) ["s", "a", "b"] (by decide) (by decide)

/-! ### Session coordinator tie-break (`src/unnamed/part_003`, `handlePeerJoin`)

On a `__join` for `peerId` the service ignores the event when a connection
for that peer already exists, and otherwise creates the connection, the
data channel and the offer only when `this.localId > peerId` (JS string
comparison, lexicographic).  JS compares UTF-16 code units and Lean
compares characters; the two orders agree on all strings the code uses
(ids stay within the basic plane). -/

structure CoordState where
  localId : String
  peerConnections : List String
  dataChannels : List String
deriving Repr, DecidableEq

/-- One `handlePeerJoin` step: returns the updated state and whether this
side created and sent the initial offer. -/
def handlePeerJoin (st : CoordState) (peerId : String) : CoordState × Bool :=
  if peerId ∈ st.peerConnections then (st, false)
  else if peerId < st.localId then
    ({ st with peerConnections := st.peerConnections ++ [peerId],
               dataChannels := st.dataChannels ++ [peerId] }, true)
  else (st, false)

/-- C1.  For two distinct members, each handling the other's join with no
prior session: each side offers exactly when the other id is strictly
below its own, so exactly one side (the strictly greater id) initiates and
the two sides never both offer; moreover a repeated join right after a
handled one never produces a second offer. -/
theorem peer_join_tie_break (stA stB : CoordState)
    (hab : stA.localId ≠ stB.localId)
    (hfA : stB.localId ∉ stA.peerConnections)
    (hfB : stA.localId ∉ stB.peerConnections) :
    ((handlePeerJoin stA stB.localId).2 = true ↔ stB.localId < stA.localId) ∧
    ((handlePeerJoin stB stA.localId).2 = true ↔ stA.localId < stB.localId) ∧
    ¬((handlePeerJoin stA stB.localId).2 = true ∧
      (handlePeerJoin stB stA.localId).2 = true) ∧
    ((handlePeerJoin stA stB.localId).2 = true ∨
      (handlePeerJoin stB stA.localId).2 = true) ∧
    (∀ (st : CoordState) (p : String),
      (handlePeerJoin (handlePeerJoin st p).1 p).2 = false) := by
  have h2nd : ∀ (st : CoordState) (p : String),
      (handlePeerJoin (handlePeerJoin st p).1 p).2 = false := by
    intro st p
    by_cases h1 : p ∈ st.peerConnections
    · simp [handlePeerJoin, h1]
    · by_cases h2 : p < st.localId
      · simp [handlePeerJoin, h1, h2]
      · simp [handlePeerJoin, h1, h2]
  have hiffA : (handlePeerJoin stA stB.localId).2 = true ↔ stB.localId < stA.localId := by
    by_cases h : stB.localId < stA.localId <;> simp [handlePeerJoin, hfA, h]
  have hiffB : (handlePeerJoin stB stA.localId).2 = true ↔ stA.localId < stB.localId := by
    by_cases h : stA.localId < stB.localId <;> simp [handlePeerJoin, hfB, h]
  refine ⟨hiffA, hiffB, ?_, ?_, h2nd⟩
  · rintro ⟨h1, h2⟩
    exact lt_asymm (hiffA.mp h1) (hiffB.mp h2)
  · rcases lt_or_gt_of_ne hab with h | h
    · exact Or.inr (hiffB.mpr h)
    · exact Or.inl (hiffA.mpr h)

/-- Witness for `peer_join_tie_break`: the spec §8 scenario — ids `a1` and
`b2`, where `b2 > a1` so the `b2` side offers. -/
theorem peer_join_tie_break_witness :
    ((handlePeerJoin { localId := "b2", peerConnections := [], dataChannels := [] }
        ({ localId := "a1", peerConnections := [], dataChannels := [] } : CoordState).localId).2 = true ↔
      ({ localId := "a1", peerConnections := [], dataChannels := [] } : CoordState).localId <
        ({ localId := "b2", peerConnections := [], dataChannels := [] } : CoordState).localId) ∧
    ((handlePeerJoin { localId := "a1", peerConnections := [], dataChannels := [] }
        ({ localId := "b2", peerConnections := [], dataChannels := [] } : CoordState).localId).2 = true ↔
      ({ localId := "b2", peerConnections := [], dataChannels := [] } : CoordState).localId <
        ({ localId := "a1", peerConnections := [], dataChannels := [] } : CoordState).localId) ∧
    ¬((handlePeerJoin { localId := "b2", peerConnections := [], dataChannels := [] }
        ({ localId := "a1", peerConnections := [], dataChannels := [] } : CoordState).localId).2 = true ∧
      (handlePeerJoin { localId := "a1", peerConnections := [], dataChannels := [] }
        ({ localId := "b2", peerConnections := [], dataChannels := [] } : CoordState).localId).2 = true) ∧
    ((handlePeerJoin { localId := "b2", peerConnections := [], dataChannels := [] }
        ({ localId := "a1", peerConnections := [], dataChannels := [] } : CoordState).localId).2 = true ∨
      (handlePeerJoin { localId := "a1", peerConnections := [], dataChannels := [] }
        ({ localId := "b2", peerConnections := [], dataChannels := [] } : CoordState).localId).2 = true) ∧
    (∀ (st : CoordState) (p : String),
      (handlePeerJoin (handlePeerJoin st p).1 p).2 = false) :=
  peer_join_tie_break
    { localId := "b2", peerConnections := [], dataChannels := [] }
    { localId := "a1", peerConnections := [], dataChannels := [] }
    (by decide) (by decide) (by decide)

/-! ### Reconnection supervisor (`src/webrtcService-backup.ts`, `connect`)

State of the retry logic: `retryCount`, `retryDelay` (ms), whether a
WebSocket currently exists in state OPEN or CONNECTING (`socketAlive`),
and whether a reconnect `setTimeout` is pending.  `connect()` is invoked
from the constructor and from the timer only; `onopen`/`onclose` fire only
on a live socket. -/

inductive ConnState where
  | connecting | connected | retrying | configFailed | connectionFailed
deriving Repr, DecidableEq

structure SupState where
  retryCount : Nat
  retryDelay : Nat
  socketAlive : Bool
  timerPending : Bool
  connState : ConnState
deriving Repr, DecidableEq

def maxRetries : Nat := 5

def initialSup : SupState :=
  { retryCount := 0, retryDelay := 1000, socketAlive := false,
    timerPending := false, connState := .connecting }

/-- `connect()`: early-return on a live socket; terminal failure once the
retry budget is spent; otherwise report connecting/retrying and open a new
WebSocket.  The `Bool` records whether a connection attempt was opened. -/
def connect (s : SupState) : SupState × Bool :=
  if s.socketAlive then (s, false)
  else if maxRetries ≤ s.retryCount then
    ({ s with connState := .connectionFailed }, false)
  else
    ({ s with connState := if 0 < s.retryCount then .retrying else .connecting,
              socketAlive := true }, true)

inductive SupEvent where
  | openEvt
  | closeEvt (code : Nat)
  | timerFire
deriving Repr, DecidableEq

/-- One supervisor transition.  Result: new state, whether a connection
attempt was opened, and the reconnect delay scheduled by this event (the
`setTimeout(() => this.connect(), this.retryDelay)` in `onclose`). -/
def stepSup (s : SupState) (e : SupEvent) : SupState × Bool × Option Nat :=
  match e with
  | .openEvt =>
    if s.socketAlive then
      ({ s with retryCount := 0, retryDelay := 1000, connState := .connected },
        false, none)
    else (s, false, none)
  | .closeEvt code =>
    if s.socketAlive then
      if code ≠ 1000 then
        let d := min (s.retryDelay * 2) 30000
        ({ s with socketAlive := false, retryCount := s.retryCount + 1,
                  retryDelay := d, timerPending := true }, false, some d)
      else ({ s with socketAlive := false }, false, none)
    else (s, false, none)
  | .timerFire =>
    if s.timerPending then
      let r := connect { s with timerPending := false }
      (r.1, r.2, none)
    else (s, false, none)

/-- Run a list of events: final state, total number of connection attempts
opened, and the list of scheduled reconnect delays in order. -/
def runSup : SupState → List SupEvent → SupState × Nat × List Nat
  | s, [] => (s, 0, [])
  | s, e :: es =>
    let r := stepSup s e
    let rest := runSup r.1 es
    (rest.1, (if r.2.1 then 1 else 0) + rest.2.1, r.2.2.toList ++ rest.2.2)

/-- The event trace of `k` abnormal disconnects, each followed by its
reconnect timer firing. -/
def abnormalTrace : Nat → List SupEvent
  | 0 => []
  | k + 1 => SupEvent.closeEvt 1006 :: SupEvent.timerFire :: abnormalTrace k

/-- C3 counterexample.  The first reconnect after an abnormal close is
scheduled after 2000 ms, not the claimed 1000 ms: `onclose` doubles
`retryDelay` before the `setTimeout` that uses it. -/
theorem backoff_first_delay_counterexample :
    (stepSup (connect initialSup).1 (SupEvent.closeEvt 1006)).2.2 = some 2000 ∧
    some (2000 : Nat) ≠ some 1000 := by
  constructor
  · rfl
  · decide

/-- C3 (amended).  Abnormal-disconnect backoff doubles the 1000 ms initial
delay before each attempt is scheduled: the successive reconnects of a
five-failure run are delayed 2 s, 4 s, 8 s, 16 s and 30 s (doubling capped
at 30 s), and a successful `onopen` resets the delay to the 1 s initial
value and the retry count to zero. -/
theorem backoff_delay_schedule :
    (runSup (connect initialSup).1 (abnormalTrace 5)).2.2 =
      [2000, 4000, 8000, 16000, 30000] ∧
    (∀ s : SupState, s.socketAlive = true →
      (stepSup s SupEvent.openEvt).1.retryDelay = 1000 ∧
      (stepSup s SupEvent.openEvt).1.retryCount = 0) := by
  constructor
  · rfl
  · intro s hs
    simp [stepSup, hs]

/-- Witness for `backoff_delay_schedule`: the reset clause applied to the
freshly connected initial state. -/
theorem backoff_delay_schedule_witness :
    (stepSup (connect initialSup).1 SupEvent.openEvt).1.retryDelay = 1000 ∧
    (stepSup (connect initialSup).1 SupEvent.openEvt).1.retryCount = 0 :=
  (backoff_delay_schedule.2 (connect initialSup).1 rfl)

/-- A supervisor state with no live socket and no pending timer is stuck:
no event is enabled, so no run from it ever opens a connection attempt. -/
theorem supervisor_stuck (s : SupState)
    (h1 : s.socketAlive = false) (h2 : s.timerPending = false) :
    ∀ es : List SupEvent, runSup s es = (s, 0, []) := by
  intro es
  induction es with
  | nil => rfl
  | cons e es ih =>
    have hstep : stepSup s e = (s, false, none) := by
      cases e with
      | openEvt => simp [stepSup, h1]
      | closeEvt code => simp [stepSup, h1]
      | timerFire => simp [stepSup, h2]
    simp [runSup, hstep, ih]

/-- In every reachable supervisor state, being in `connection_failed`
means having no live socket and no pending reconnect timer. -/
def SupInv (s : SupState) : Prop :=
  s.connState = ConnState.connectionFailed →
    s.socketAlive = false ∧ s.timerPending = false

theorem supInv_step (s : SupState) (e : SupEvent) (h : SupInv s) :
    SupInv (stepSup s e).1 := by
  cases e with
  | openEvt =>
    by_cases ha : s.socketAlive
    · simp only [stepSup, if_pos ha]
      intro hc
      cases hc
    · simp only [stepSup, if_neg ha]
      exact h
  | closeEvt code =>
    by_cases ha : s.socketAlive
    · by_cases hcode : code ≠ 1000
      · simp only [stepSup, if_pos ha, if_pos hcode]
        intro hc
        exact absurd (h hc).1 (by simp [ha])
      · simp only [stepSup, if_pos ha, if_neg hcode]
        intro hc
        exact absurd (h hc).1 (by simp [ha])
    · simp only [stepSup, if_neg ha]
      exact h
  | timerFire =>
    by_cases hp : s.timerPending
    · simp only [stepSup, if_pos hp]
      by_cases ha : s.socketAlive
      · simp only [connect, if_pos ha]
        intro hc
        exact absurd (h hc).2 (by simp [hp])
      · by_cases hmax : maxRetries ≤ s.retryCount
        · simp only [connect, if_neg ha, if_pos hmax]
          intro _
          exact ⟨by simpa using ha, rfl⟩
        · simp only [connect, if_neg ha, if_neg hmax]
          intro hc
          rcases Nat.lt_or_ge 0 s.retryCount with hr | hr
          · simp [if_pos hr] at hc
          · simp [Nat.lt_irrefl, Nat.le_zero.mp hr] at hc
    · simp only [stepSup, if_neg hp]
      exact h

theorem supInv_run (es : List SupEvent) : ∀ s : SupState, SupInv s →
    SupInv (runSup s es).1 := by
  induction es with
  | nil => intro s h; exact h
  | cons e es ih =>
    intro s h
    exact ih (stepSup s e).1 (supInv_step s e h)

/-- C4.  In every execution: whenever a run from the freshly started
supervisor ends in the terminal `connection_failed` state, no continuation
of that run — whatever events arrive — ever opens another connection
attempt (nor changes the state at all); and the five-abnormal-disconnect
run does end in `connection_failed`. -/
theorem terminal_after_max_retries :
    (∀ es : List SupEvent,
      (runSup (connect initialSup).1 es).1.connState = ConnState.connectionFailed →
      ∀ es' : List SupEvent,
        runSup (runSup (connect initialSup).1 es).1 es' =
          ((runSup (connect initialSup).1 es).1, 0, [])) ∧
    (runSup (connect initialSup).1 (abnormalTrace 5)).1.connState =
      ConnState.connectionFailed := by
  constructor
  · intro es hfail es'
    have hinv0 : SupInv (connect initialSup).1 := by
      intro hc
      cases hc
    have hinv := supInv_run es (connect initialSup).1 hinv0
    obtain ⟨ha, hp⟩ := hinv hfail
    exact supervisor_stuck _ ha hp es'
  · rfl

/-- Witness for `terminal_after_max_retries` at the five-failure run. -/
theorem terminal_after_max_retries_witness :
    runSup (runSup (connect initialSup).1 (abnormalTrace 5)).1
        [SupEvent.openEvt, SupEvent.closeEvt 1006, SupEvent.timerFire] =
      ((runSup (connect initialSup).1 (abnormalTrace 5)).1, 0, []) :=
  terminal_after_max_retries.1 (abnormalTrace 5) rfl
    [SupEvent.openEvt, SupEvent.closeEvt 1006, SupEvent.timerFire]

/-! ### Presence heartbeat (`src/webrtcService.ts`, `announcePresence`)

Every 3 s the service reads the room's presence object from localStorage,
writes its own entry, persists the object, prunes entries older than 10 s
from the in-memory copy only, and attempts a connection to every remaining
unknown peer.  Note the order: the write to localStorage happens before
the pruning, and no callback of any kind is invoked for a pruned entry. -/

structure PresenceEntry where
  peerId : Option String
  name : String
  timestamp : Nat
deriving Repr, DecidableEq

structure PresenceResult where
  stored : List (String × PresenceEntry)
  view : List (String × PresenceEntry)
  connectTargets : List String
  leaves : List String
deriving Repr, DecidableEq

/-- The 10 s staleness window (`now - presence[id].timestamp > 10000`). -/
def staleMs : Nat := 10000

/-- One `announcePresence` pass.  `prev` is the parsed localStorage value;
`stored` is what is written back; `view` the in-memory object after the
stale-entry loop; `connectTargets` the peers passed to `connectToPeer`;
`leaves` the synthetic leave notifications raised by the pass. -/
def announcePresence (prev : List (String × PresenceEntry)) (localId : String)
    (myPeerId : Option String) (localName : String) (now : Nat)
    (knownPeers : List String) (connections : List String) : PresenceResult :=
  let stored := insertKV prev localId
    { peerId := myPeerId, name := localName, timestamp := now }
  let view := stored.filter (fun p => !(decide (staleMs < now - p.2.timestamp)))
  let targets := (view.filter (fun p =>
      p.1 ≠ localId && !(knownPeers.contains p.1) && !(connections.contains p.1)
        && p.2.peerId.isSome)).map Prod.fst
  { stored := stored, view := view, connectTargets := targets, leaves := [] }

/-- C7 counterexample.  A presence entry 20 s old is well past the 10 s
window, yet a pruning pass produces zero synthetic leave notifications
for it, not the claimed exactly one. -/
theorem presence_prune_no_leave_counterexample :
    staleMs < 20000 - (0 : Nat) ∧
    (announcePresence [("bob", { peerId := some "pb", name := "Bob", timestamp := 0 })]
        "alice" (some "pa") "Alice" 20000 [] []).leaves.count "bob" ≠ 1 := by
  constructor
  · decide
  · decide

theorem mem_keys_insertKV {β : Type} (l : List (String × β)) (k x : String) (v : β) :
    x ∈ (insertKV l k v).map Prod.fst ↔ x ∈ l.map Prod.fst ∨ x = k := by
  induction l with
  | nil => simp [insertKV]
  | cons p ps ih =>
    simp only [insertKV]
    by_cases hp : p.1 = k
    · rw [if_pos hp]
      simp only [List.map_cons, List.mem_cons, hp]
      tauto
    · rw [if_neg hp]
      simp only [List.map_cons, List.mem_cons, ih]
      tauto

theorem nodupKeys_insertKV {β : Type} (l : List (String × β)) (k : String) (v : β)
    (hnd : (l.map Prod.fst).Nodup) : ((insertKV l k v).map Prod.fst).Nodup := by
  induction l with
  | nil => simp [insertKV]
  | cons p ps ih =>
    simp only [List.map_cons, List.nodup_cons] at hnd
    simp only [insertKV]
    by_cases hp : p.1 = k
    · rw [if_pos hp]
      simp only [List.map_cons, List.nodup_cons]
      refine ⟨?_, hnd.2⟩
      rw [← hp]
      exact hnd.1
    · rw [if_neg hp]
      simp only [List.map_cons, List.nodup_cons]
      refine ⟨?_, ih hnd.2⟩
      rw [mem_keys_insertKV]
      rintro (h | h)
      · exact hnd.1 h
      · exact hp h

theorem lookup_filter_eq_none {β : Type} (l : List (String × β)) (k : String)
    (p : String × β → Bool) (hnd : (l.map Prod.fst).Nodup) {v : β}
    (hl : lookup l k = some v) (hp : p (k, v) = false) :
    lookup (l.filter p) k = none := by
  induction l with
  | nil => simp [lookup] at hl
  | cons q qs ih =>
    simp only [List.map_cons, List.nodup_cons] at hnd
    by_cases hq : q.1 = k
    · simp only [lookup, if_pos hq] at hl
      injection hl with hv
      have hqpair : q = (k, v) := by
        rcases q with ⟨q1, q2⟩
        simp only at hq hv
        rw [hq, hv]
      have hnone : lookup (qs.filter p) k = none := by
        rw [lookup_eq_none_iff]
        intro hmem
        have hsub : (qs.filter p).map Prod.fst ⊆ qs.map Prod.fst :=
          ((qs.filter_sublist).map Prod.fst).subset
        have : k ∈ qs.map Prod.fst := hsub hmem
        rw [← hq] at this
        exact hnd.1 this
      rw [List.filter_cons, hqpair, hp]
      simpa using hnone
    · simp only [lookup, if_neg hq] at hl
      have hrest := ih hnd.2 hl
      rw [List.filter_cons]
      by_cases hpq : p q = true
      · rw [if_pos hpq]
        simp only [lookup, if_neg hq]
        exact hrest
      · rw [if_neg hpq]
        exact hrest

/-- C7 (amended).  A stale entry (older than the 10 s window) is removed
from the in-memory presence view of the pass — so no connection is
attempted to it — but the pass raises no synthetic leave notification at
all, and the copy persisted to storage still contains the stale entry
(the write happens before the pruning). -/
theorem presence_prune_behavior (prev : List (String × PresenceEntry))
    (localId : String) (myPeerId : Option String) (localName : String)
    (now : Nat) (knownPeers : List String) (connections : List String)
    (id : String) (e : PresenceEntry)
    (hnd : (prev.map Prod.fst).Nodup)
    (hid : id ≠ localId)
    (hfound : lookup prev id = some e)
    (hstale : staleMs < now - e.timestamp) :
    (announcePresence prev localId myPeerId localName now
        knownPeers connections).leaves = [] ∧
    lookup (announcePresence prev localId myPeerId localName now
        knownPeers connections).view id = none ∧
    id ∉ (announcePresence prev localId myPeerId localName now
        knownPeers connections).connectTargets ∧
    lookup (announcePresence prev localId myPeerId localName now
        knownPeers connections).stored id = some e := by
  have hstored : lookup (insertKV prev localId
      { peerId := myPeerId, name := localName, timestamp := now }) id = some e := by
    rw [lookup_insertKV_ne _ _ _ _ hid]
    exact hfound
  have hndStored : ((insertKV prev localId
      { peerId := myPeerId, name := localName, timestamp := now }).map Prod.fst).Nodup :=
    nodupKeys_insertKV prev localId _ hnd
  have hview : lookup ((insertKV prev localId
      { peerId := myPeerId, name := localName, timestamp := now }).filter
        (fun p => !(decide (staleMs < now - p.2.timestamp)))) id = none := by
    apply lookup_filter_eq_none _ _ _ hndStored hstored
    simp [hstale]
  refine ⟨rfl, hview, ?_, hstored⟩
  intro hmem
  simp only [announcePresence] at hmem
  obtain ⟨pr, hpr, hfst⟩ := List.mem_map.mp hmem
  have hmemView : id ∈ ((insertKV prev localId
      { peerId := myPeerId, name := localName, timestamp := now }).filter
        (fun p => !(decide (staleMs < now - p.2.timestamp)))).map Prod.fst := by
    rw [← hfst]
    exact List.mem_map_of_mem _ (List.mem_of_mem_filter hpr)
  exact ((lookup_eq_none_iff _ _).mp hview) hmemView

/-- Witness for `presence_prune_behavior` at the counterexample's input. -/
theorem presence_prune_behavior_witness :
    (announcePresence [("bob", { peerId := some "pb", name := "Bob", timestamp := 0 })]
        "alice" (some "pa") "Alice" 20000 [] []).leaves = [] ∧
    lookup (announcePresence [("bob", { peerId := some "pb", name := "Bob", timestamp := 0 })]
        "alice" (some "pa") "Alice" 20000 [] []).view "bob" = none ∧
    "bob" ∉ (announcePresence [("bob", { peerId := some "pb", name := "Bob", timestamp := 0 })]
        "alice" (some "pa") "Alice" 20000 [] []).connectTargets ∧
    lookup (announcePresence [("bob", { peerId := some "pb", name := "Bob", timestamp := 0 })]
        "alice" (some "pa") "Alice" 20000 [] []).stored "bob" =
      some { peerId := some "pb", name := "Bob", timestamp := 0 } :=
  presence_prune_behavior
    [("bob", { peerId := some "pb", name := "Bob", timestamp := 0 })]
    "alice" (some "pa") "Alice" 20000 [] [] "bob"
    { peerId := some "pb", name := "Bob", timestamp := 0 }
    (by decide) (by decide) (by decide) (by decide)

/-! ### Session teardown (`src/webrtcService-backup.ts`, `handleUserDisconnected`)

`handleUserDisconnected(remoteId)` closes and removes the peer connection
and data channel for `remoteId` and then calls `onParticipantLeft(remoteId)`
unconditionally.  It is invoked from the relay `__leave` branch of
`handleSignalingMessage` and from `onconnectionstatechange` whenever the
transport reports `failed`, `disconnected` or `closed`. -/

structure MeshState where
  peerConnections : List String
  dataChannels : List String
deriving Repr, DecidableEq

/-- One `handleUserDisconnected` call: the updated maps and the
participant-left notifications raised by the call. -/
def handleUserDisconnected (st : MeshState) (remoteId : String) :
    MeshState × List String :=
  ({ peerConnections := st.peerConnections.filter (fun x => x ≠ remoteId),
     dataChannels := st.dataChannels.filter (fun x => x ≠ remoteId) },
   [remoteId])

/-- Disconnect-triggering events: a relay `__leave` envelope for the peer,
or the transport reporting failed / disconnected / closed. -/
inductive DiscEvent where
  | explicitLeave (remoteId : String)
  | transportStateBad (remoteId : String)
deriving Repr, DecidableEq

def discTarget : DiscEvent → String
  | .explicitLeave r => r
  | .transportStateBad r => r

/-- Process a sequence of disconnect events, collecting every
participant-left notification raised. -/
def runDisconnects (st : MeshState) : List DiscEvent → MeshState × List String
  | [] => (st, [])
  | e :: es =>
    let r := handleUserDisconnected st (discTarget e)
    let rest := runDisconnects r.1 es
    (rest.1, r.2 ++ rest.2)

/-- C8 counterexample.  The transport reports `disconnected` for `bob` and
the relay `__leave` for `bob` arrives afterwards: the participant-left
notification for `bob` is raised twice, not exactly once. -/
theorem participant_left_twice_counterexample :
    (runDisconnects { peerConnections := ["bob"], dataChannels := ["bob"] }
      [.transportStateBad "bob", .explicitLeave "bob"]).2.count "bob" = 2 ∧
    (2 : Nat) ≠ 1 := by
  constructor
  · rfl
  · decide

theorem runDisconnects_notifs (st : MeshState) (es : List DiscEvent) :
    (runDisconnects st es).2 = es.map discTarget := by
  induction es generalizing st with
  | nil => rfl
  | cons e es ih => simp [runDisconnects, handleUserDisconnected, ih]

theorem runDisconnects_pcs (st : MeshState) (es : List DiscEvent) :
    (runDisconnects st es).1.peerConnections =
      st.peerConnections.filter (fun x => !(es.map discTarget).contains x) ∧
    (runDisconnects st es).1.dataChannels =
      st.dataChannels.filter (fun x => !(es.map discTarget).contains x) := by
  induction es generalizing st with
  | nil =>
    constructor <;> simp [runDisconnects]
  | cons e es ih =>
    have h := ih (handleUserDisconnected st (discTarget e)).1
    constructor
    · show (runDisconnects (handleUserDisconnected st (discTarget e)).1 es).1.peerConnections = _
      rw [h.1]
      simp only [handleUserDisconnected, List.filter_filter, List.map_cons,
        List.contains_cons]
      congr 1
      funext x
      by_cases hx : x = discTarget e <;> simp [hx]
    · show (runDisconnects (handleUserDisconnected st (discTarget e)).1 es).1.dataChannels = _
      rw [h.2]
      simp only [handleUserDisconnected, List.filter_filter, List.map_cons,
        List.contains_cons]
      congr 1
      funext x
      by_cases hx : x = discTarget e <;> simp [hx]

/-- C8 (amended).  Teardown is idempotent on the session maps — after any
event for `r` the maps no longer contain `r` — but the participant-left
notification is raised once per disconnect-triggering event, so a peer for
which `n` such events arrive is announced as left exactly `n` times (at
least once, and more than once whenever events repeat). -/
theorem participant_left_per_event (st : MeshState) (es : List DiscEvent) (r : String) :
    (runDisconnects st es).2.count r = (es.map discTarget).count r ∧
    (r ∈ es.map discTarget →
      r ∉ (runDisconnects st es).1.peerConnections ∧
      r ∉ (runDisconnects st es).1.dataChannels) := by
  refine ⟨by rw [runDisconnects_notifs], ?_⟩
  intro hmem
  obtain ⟨h1, h2⟩ := runDisconnects_pcs st es
  constructor
  · rw [h1]
    intro hin
    have hc := (List.mem_filter.mp hin).2
    exact (by simpa using hc : r ∉ es.map discTarget) hmem
  · rw [h2]
    intro hin
    have hc := (List.mem_filter.mp hin).2
    exact (by simpa using hc : r ∉ es.map discTarget) hmem

/-- Witness for `participant_left_per_event`: two events for `bob` give a
count of two and empty maps. -/
theorem participant_left_per_event_witness :
    (runDisconnects { peerConnections := ["bob"], dataChannels := ["bob"] }
      [DiscEvent.transportStateBad "bob", DiscEvent.explicitLeave "bob"]).2.count "bob" =
      (([DiscEvent.transportStateBad "bob",
         DiscEvent.explicitLeave "bob"]).map discTarget).count "bob" ∧
    ("bob" ∈ ([DiscEvent.transportStateBad "bob",
         DiscEvent.explicitLeave "bob"]).map discTarget →
      "bob" ∉ (runDisconnects { peerConnections := ["bob"], dataChannels := ["bob"] }
        [DiscEvent.transportStateBad "bob", DiscEvent.explicitLeave "bob"]).1.peerConnections ∧
      "bob" ∉ (runDisconnects { peerConnections := ["bob"], dataChannels := ["bob"] }
        [DiscEvent.transportStateBad "bob", DiscEvent.explicitLeave "bob"]).1.dataChannels) :=
  participant_left_per_event
    { peerConnections := ["bob"], dataChannels := ["bob"] }
    [DiscEvent.transportStateBad "bob", DiscEvent.explicitLeave "bob"] "bob"

/-! ### Control-channel multiplexer (`src/webrtcService-backup.ts`,
`handleDataChannelMessage`)

The handler runs `JSON.parse(event.data)` with no try/catch — a malformed
payload throws out of the `onmessage` handler — and then dispatches on
`data.type`; the `default` branch logs a warning and invokes no handler.
Raw wire data is abstracted by whether `JSON.parse` succeeds on it and, if
so, the `type` and `payload` it yields; `Except` carries a thrown
exception to the caller. -/

inductive RawData where
  | malformed (text : String)
  | wellFormed (type : String) (payload : String)
deriving Repr, DecidableEq

inductive HandlerCall where
  | reaction (p : String)
  | caption (p : String)
  | message (p : String)
  | messageUpdate (p : String)
  | messageDelete (p : String)
  | nicknameChange (p : String)
deriving Repr, DecidableEq

/-- `JSON.parse`: throws a `SyntaxError` on malformed input. -/
def parseJson : RawData → Except String (String × String)
  | .malformed _ => .error "SyntaxError"
  | .wellFormed t p => .ok (t, p)

/-- The `switch (data.type)` dispatch; `none` is the logged-and-dropped
default branch. -/
def dispatchByType (t p : String) : Option HandlerCall :=
  if t = "reaction" then some (.reaction p)
  else if t = "caption" then some (.caption p)
  else if t = "message" then some (.message p)
  else if t = "message-update" then some (.messageUpdate p)
  else if t = "message-delete" then some (.messageDelete p)
  else if t = "nickname-change" then some (.nicknameChange p)
  else none

/-- `handleDataChannelMessage`: `JSON.parse` outside any try/catch, then
the type switch.  An `Except.error` result is an exception escaping to the
caller. -/
def handleDataChannelMessage (raw : RawData) : Except String (Option HandlerCall) :=
  match parseJson raw with
  | .error e => .error e
  | .ok tp => .ok (dispatchByType tp.1 tp.2)

def knownControlTypes : List String :=
  ["reaction", "caption", "message", "message-update", "message-delete",
   "nickname-change"]

/-- C9 counterexample.  A malformed (unparseable) control-channel message
makes `JSON.parse` throw and the error escapes `handleDataChannelMessage`
to its caller — receiving does throw on such input. -/
theorem multiplexer_malformed_throws_counterexample :
    handleDataChannelMessage (RawData.malformed "not json") =
      Except.error "SyntaxError" ∧
    ∀ h : Option HandlerCall,
      handleDataChannelMessage (RawData.malformed "not json") ≠ Except.ok h := by
  constructor
  · rfl
  · intro h
    simp [handleDataChannelMessage, parseJson]

/-- C9 (amended).  A parseable message of unknown type is logged and
dropped without invoking any registered handler and without an error, but
a malformed message is not swallowed: `JSON.parse` throws and the
exception propagates to the caller of the receive handler. -/
theorem multiplexer_dispatch_behavior (t p s : String)
    (hunk : t ∉ knownControlTypes) :
    handleDataChannelMessage (RawData.wellFormed t p) = Except.ok none ∧
    handleDataChannelMessage (RawData.malformed s) = Except.error "SyntaxError" := by
  constructor
  · simp only [knownControlTypes, List.mem_cons, List.not_mem_nil, or_false,
      not_or] at hunk
    obtain ⟨h1, h2, h3, h4, h5, h6⟩ := hunk
    simp [handleDataChannelMessage, parseJson, dispatchByType,
      h1, h2, h3, h4, h5, h6]
  · rfl

/-- Witness for `multiplexer_dispatch_behavior` at an unknown type. -/
theorem multiplexer_dispatch_behavior_witness :
    handleDataChannelMessage (RawData.wellFormed "totally-new-type" "x") =
      Except.ok none ∧
    handleDataChannelMessage (RawData.malformed "oops") =
      Except.error "SyntaxError" :=
  multiplexer_dispatch_behavior "totally-new-type" "x" "oops" (by decide)

/-! ### Candidate handling (`src/webrtcService-backup.ts`,
`handleIceCandidate` / `handleAnswer`; identical logic in
`src/unnamed/part_003`)

`handleIceCandidate` looks up the `RTCPeerConnection` for the sender and,
if present, calls `pc.addIceCandidate` immediately inside a try/catch that
only logs.  `RTCPeerConnection.addIceCandidate` rejects with
`InvalidStateError` while no remote description is set, so such a
candidate is logged and dropped.  There is no `pendingCandidates` field
anywhere in the sources. -/

structure PeerConn where
  localDescription : Option String
  remoteDescription : Option String
  appliedCandidates : List String
deriving Repr, DecidableEq

/-- `RTCPeerConnection.addIceCandidate`: applies the candidate when a
remote description is set, rejects with `InvalidStateError` otherwise. -/
def addIceCandidate (pc : PeerConn) (c : String) : Except String PeerConn :=
  if pc.remoteDescription.isSome then
    .ok { pc with appliedCandidates := pc.appliedCandidates ++ [c] }
  else .error "InvalidStateError"

/-- `handleIceCandidate(remoteId, candidate)` over the
`peerConnections` map: missing connection → dropped; `addIceCandidate`
failure → caught, logged, dropped. -/
def handleIceCandidate (conns : List (String × PeerConn)) (remoteId : String)
    (candidate : String) : List (String × PeerConn) :=
  match lookup conns remoteId with
  | none => conns
  | some pc =>
    match addIceCandidate pc candidate with
    | .ok pc' => insertKV conns remoteId pc'
    | .error _ => conns

/-- `handleAnswer(remoteId, answer)`: sets the remote description on the
existing connection (via `setRemoteDescription`). -/
def handleAnswer (conns : List (String × PeerConn)) (remoteId : String)
    (answer : String) : List (String × PeerConn) :=
  match lookup conns remoteId with
  | none => conns
  | some pc => insertKV conns remoteId { pc with remoteDescription := some answer }

/-- Modelled from the spec: the per-session `pendingCandidates` queue the
spec describes ("appended to `pendingCandidates` and flushed, in order,
immediately after the remote description is set").  No such queue exists
in any source file; this definition follows the spec's words so the code's
behavior can be compared against it. -/
structure SpecPeerSession where
  remoteDescription : Option String
  pendingCandidates : List String
  appliedCandidates : List String
deriving Repr, DecidableEq

/-- Modelled from the spec: candidate arrival with buffering. -/
def specHandleIceCandidate (s : SpecPeerSession) (c : String) : SpecPeerSession :=
  if s.remoteDescription.isSome then
    { s with appliedCandidates := s.appliedCandidates ++ [c] }
  else { s with pendingCandidates := s.pendingCandidates ++ [c] }

/-- Modelled from the spec: setting the remote description flushes the
buffered candidates in arrival order. -/
def specSetRemoteDescription (s : SpecPeerSession) (d : String) : SpecPeerSession :=
  { remoteDescription := some d,
    pendingCandidates := [],
    appliedCandidates := s.appliedCandidates ++ s.pendingCandidates }

/-- C2 counterexample.  A candidate that arrives before the answer is
dropped by the code: after candidate `c1` and then the answer, the code's
session has applied no candidate, while the spec's buffered session has
applied `c1`. -/
theorem pending_candidates_counterexample :
    lookup (handleAnswer (handleIceCandidate
        [("bob", { localDescription := some "offer", remoteDescription := none,
                   appliedCandidates := [] })] "bob" "c1") "bob" "ans") "bob" =
      some { localDescription := some "offer", remoteDescription := some "ans",
             appliedCandidates := [] } ∧
    (specSetRemoteDescription (specHandleIceCandidate
        { remoteDescription := none, pendingCandidates := [],
          appliedCandidates := [] } "c1") "ans").appliedCandidates = ["c1"] ∧
    ([] : List String) ≠ ["c1"] := by
  refine ⟨rfl, rfl, by decide⟩

/-- C2 (amended).  The code has no candidate buffer: a candidate received
while the session's remote description is unset is passed to
`addIceCandidate` immediately, which fails, and the candidate is logged
and dropped with the state unchanged; a candidate for an unknown peer is
likewise dropped; only candidates received after the remote description is
set are applied, in arrival order. -/
theorem candidate_handling_behavior (conns : List (String × PeerConn))
    (remoteId : String) (pc : PeerConn)
    (hpc : lookup conns remoteId = some pc) :
    (pc.remoteDescription = none →
      ∀ c, handleIceCandidate conns remoteId c = conns) ∧
    (pc.remoteDescription.isSome = true →
      ∀ cs : List String,
        lookup (cs.foldl (fun a c => handleIceCandidate a remoteId c) conns)
            remoteId =
          some { pc with appliedCandidates := pc.appliedCandidates ++ cs }) ∧
    (∀ other c, lookup conns other = none →
      handleIceCandidate conns other c = conns) := by
  refine ⟨?_, ?_, ?_⟩
  · intro hnone c
    simp [handleIceCandidate, hpc, addIceCandidate, hnone]
  · intro hsome cs
    induction cs generalizing conns pc with
    | nil =>
      simp only [List.foldl_nil]
      rw [hpc]
      congr 1
      cases pc
      simp
    | cons c cs ih =>
      simp only [List.foldl_cons]
      have hstep : handleIceCandidate conns remoteId c =
          insertKV conns remoteId
            { pc with appliedCandidates := pc.appliedCandidates ++ [c] } := by
        simp [handleIceCandidate, hpc, addIceCandidate, hsome]
      rw [hstep]
      have hpc' : lookup (insertKV conns remoteId
          { pc with appliedCandidates := pc.appliedCandidates ++ [c] }) remoteId =
          some { pc with appliedCandidates := pc.appliedCandidates ++ [c] } :=
        lookup_insertKV_self _ _ _
      have := ih _ _ hpc' hsome
      simpa [List.append_assoc] using this
  · intro other c hother
    simp [handleIceCandidate, hother]

/-- Witness for `candidate_handling_behavior`: a session with the remote
description set applies two candidates in order; an unknown peer's
candidate is dropped. -/
theorem candidate_handling_behavior_witness :
    (({ localDescription := some "offer", remoteDescription := some "ans",
        appliedCandidates := [] } : PeerConn).remoteDescription = none →
      ∀ c, handleIceCandidate
        [("bob", { localDescription := some "offer", remoteDescription := some "ans",
                   appliedCandidates := [] })] "bob" c =
        [("bob", { localDescription := some "offer", remoteDescription := some "ans",
                   appliedCandidates := [] })]) ∧
    (({ localDescription := some "offer", remoteDescription := some "ans",
        appliedCandidates := [] } : PeerConn).remoteDescription.isSome = true →
      ∀ cs : List String,
        lookup (cs.foldl (fun a c => handleIceCandidate a "bob" c)
            [("bob", { localDescription := some "offer", remoteDescription := some "ans",
                       appliedCandidates := [] })]) "bob" =
          some ({ localDescription := some "offer", remoteDescription := some "ans",
                  appliedCandidates := [] ++ cs } : PeerConn)) ∧
    (∀ other c, lookup
        [("bob", ({ localDescription := some "offer", remoteDescription := some "ans",
                    appliedCandidates := [] } : PeerConn))] other = none →
      handleIceCandidate
        [("bob", { localDescription := some "offer", remoteDescription := some "ans",
                   appliedCandidates := [] })] other c =
        [("bob", { localDescription := some "offer", remoteDescription := some "ans",
                   appliedCandidates := [] })]) :=
  candidate_handling_behavior
    [("bob", { localDescription := some "offer", remoteDescription := some "ans",
               appliedCandidates := [] })]
    "bob"
    { localDescription := some "offer", remoteDescription := some "ans",
      appliedCandidates := [] }
    (by decide)

/-! ### Chat message send path (`src/webrtcService-backup.ts`,
`sendMessage`; `Message` from the shared types)

`sendMessage` destructures `const { file, ...content } = message.content`
and broadcasts `{ ...message, content }` as a `'message'` control frame:
the `file` field is removed, everything else is forwarded verbatim.  The
`content` union (`TextContent | FileContent`) is embedded as one record
with optional fields; removing the `file` key is setting it to `none`. -/

structure FileBlob where
  bytes : List Nat
deriving Repr, DecidableEq

structure MessageContent where
  originalText : Option String
  translatedText : Option String
  targetLanguage : Option String
  fileName : Option String
  fileSize : Option Nat
  fileType : Option String
  file : Option FileBlob
deriving Repr, DecidableEq

structure Message where
  id : String
  senderId : String
  senderName : String
  type : String
  content : MessageContent
  isPrivate : Bool
  recipientIds : Option (List String)
  timestamp : String
  isEdited : Option Bool
deriving Repr, DecidableEq

/-- `const (file, ...content) = message.content` — the rest object. -/
def stripFileField (c : MessageContent) : MessageContent :=
  { c with file := none }

/-- The payload `sendMessage` hands to `broadcastData('message', payload)`. -/
def sendMessagePayload (m : Message) : Message :=
  { m with content := stripFileField m.content }

/-- C10.  The broadcast payload built by `sendMessage` carries no file —
its `content.file` is `none`, so no file bytes reach a control channel —
while every other field of the message and of its content is transmitted
unchanged. -/
theorem send_message_strips_file (m : Message) :
    (sendMessagePayload m).content.file = none ∧
    (sendMessagePayload m).content.originalText = m.content.originalText ∧
    (sendMessagePayload m).content.translatedText = m.content.translatedText ∧
    (sendMessagePayload m).content.targetLanguage = m.content.targetLanguage ∧
    (sendMessagePayload m).content.fileName = m.content.fileName ∧
    (sendMessagePayload m).content.fileSize = m.content.fileSize ∧
    (sendMessagePayload m).content.fileType = m.content.fileType ∧
    (sendMessagePayload m).id = m.id ∧
    (sendMessagePayload m).senderId = m.senderId ∧
    (sendMessagePayload m).senderName = m.senderName ∧
    (sendMessagePayload m).type = m.type ∧
    (sendMessagePayload m).isPrivate = m.isPrivate ∧
    (sendMessagePayload m).recipientIds = m.recipientIds ∧
    (sendMessagePayload m).timestamp = m.timestamp ∧
    (sendMessagePayload m).isEdited = m.isEdited := by
  refine ⟨rfl, rfl, rfl, rfl, rfl, rfl, rfl, rfl, rfl, rfl, rfl, rfl, rfl, rfl, rfl⟩

end CollabSphere
